import Mathlib

/-!
Shallow embedding of the lexer of `loxrs` (`src/token.rs`).

Strings are modelled as `List Char` (Rust `&str` is a UTF-8 slice; positions in
the Rust code are byte offsets, which we recover with `utf8Len`).  The lexer
state mirrors the Rust struct `Lexer { rest, offset, whole }`.  `Iterator::next`
is modelled by `next : Lexer → Out × Lexer`, where `Out` distinguishes the four
observable outcomes of a call: `Some(Ok(token))`, `Some(Err(diagnostic))`,
`None` (end of input) and reaching a `todo!()` (a Rust panic, which aborts).
-/

namespace Loxrs

/-- Byte length of a character sequence in its UTF-8 encoding; `str::len` of the
corresponding Rust slice.  Positions in the Rust lexer are byte offsets. -/
def utf8Len (l : List Char) : Nat := (l.map Char.utf8Size).sum

/-- Rust `char::is_whitespace`: the Unicode `White_Space` property
(U+0009–U+000D, U+0020, U+0085, U+00A0, U+1680, U+2000–U+200A, U+2028, U+2029,
U+202F, U+205F, U+3000). -/
def isRustWhitespace (c : Char) : Bool :=
  let n := c.toNat
  (0x9 ≤ n && n ≤ 0xD) || n == 0x20 || n == 0x85 || n == 0xA0 || n == 0x1680 ||
    (0x2000 ≤ n && n ≤ 0x200A) || n == 0x2028 || n == 0x2029 || n == 0x202F ||
    n == 0x205F || n == 0x3000

/-- `TokenType<'de>` from `src/token.rs`.  Payloads are the borrowed lexemes as
character lists.  `Number` in the source carries `(&str, f64)`; the `f64`
component is omitted here because the scanner never constructs a `Number`
(its `Started::Number` state falls into the `_ => todo!()` arm, see `Out.panic`).
The Rust keyword variants `And … While` are Lean keywords in part, so they are
uniformly prefixed with `kw`. -/
inductive TokenType where
  | lparen | rparen | lbrace | rbrace | comma | dot | minus | plus | semicolon | star
  | bang | bangEqual | equal | equalEqual | greater | greaterEqual | less | lessEqual
  | string (s : List Char)
  | ident (s : List Char)
  | number (s : List Char)
  | kwAnd | kwClass | kwElse | kwFalse | kwFor | kwFun | kwIf | kwNil
  | kwOr | kwPrint | kwReturn | kwSuper | kwThis | kwTrue | kwVar | kwWhile
  deriving DecidableEq, Repr

/-- A `miette` diagnostic as the lexer builds it: a message, the label text of
its single `LabeledSpan`, and that span's byte range `spanStart..spanEnd` in the
source buffer.  (`with_source_code` attaches the buffer for rendering; it does
not change the span and is not modelled.) -/
structure Diag where
  message : String
  label : String
  spanStart : Nat
  spanEnd : Nat
  deriving DecidableEq, Repr

/-- The observable result of one `next()` call:
`tok t` = `Some(Ok(t))`, `err d` = `Some(Err(d))`, `eoi` = `None`,
`panic` = the call reaches a `todo!()` and aborts the process. -/
inductive Out where
  | tok (t : TokenType)
  | err (d : Diag)
  | eoi
  | panic
  deriving DecidableEq, Repr

/-- `Lexer<'de> { rest, offset, whole }`: the unconsumed suffix, the byte offset
of that suffix in `whole`, and the whole source buffer. -/
structure Lexer where
  rest : List Char
  offset : Nat
  whole : List Char
  deriving DecidableEq, Repr

/-- `Lexer::new`. -/
def Lexer.new (input : List Char) : Lexer := ⟨input, 0, input⟩

/-- The message of the "unexpected character" diagnostic,
`"Unexpected token {c} in input"`. -/
def unexpectedMsg (c : Char) : String :=
  "Unexpected token " ++ c.toString ++ " in input"

/-- `'a'..='z' | '_'`: characters that send `Start` to `Started::Ident`. -/
def identStart (c : Char) : Bool := ('a' ≤ c && c ≤ 'z') || c == '_'

/-- `'a'..='z' | '1'..='9' | '_'`: the characters the `Started::Ident` loop
keeps consuming.  (Note the source really matches `'1'..='9'`, excluding `'0'`.) -/
def identCont (c : Char) : Bool :=
  ('a' ≤ c && c ≤ 'z') || ('1' ≤ c && c ≤ '9') || c == '_'

/-- `'0'..='9'`: characters that send `Start` to `Started::Number`. -/
def isAsciiDigit (c : Char) : Bool := '0' ≤ c && c ≤ '9'

/-- `self.rest.rfind('"')`, as the index (in characters) of the last `'"'`;
the Rust byte index of that quote is `utf8Len (l.take j)`. -/
def rfindQuote : List Char → Option Nat
  | [] => none
  | c :: cs =>
    match rfindQuote cs with
    | some j => some (j + 1)
    | none => if c = '"' then some 0 else none

/-- The four `Started::Bang / Equal / Greater / Less` arms of `next` share this
body (they are textually identical in the source up to the token pair): peek one
character; on `'='` consume it and emit the two-character token; on any other
character emit the one-character token without consuming; at end of input the
source emits the `"Unexpected token {c} in input"` diagnostic spanning `c`. -/
def opEq (c : Char) (one two : TokenType) (l : Lexer) : Out × Lexer :=
  match l.rest with
  | ch :: cs =>
    if ch = '=' then
      (.tok two, ⟨cs, l.offset + ch.utf8Size, l.whole⟩)
    else
      (.tok one, l)
  | [] =>
    (.err ⟨unexpectedMsg c, "this character", l.offset - c.utf8Size, l.offset⟩, l)

/-- One iteration of the `loop` in `Lexer::next`, after the first character `c`
of the former `rest` has been consumed (`cs` is the new `rest`, `offset` is
already advanced past `c`; the caller passes `offset + c.utf8Size`).  Returns
`none` exactly for the `c if c.is_whitespace() => continue` arm; every other arm
returns the call's result.  The arms appear in source order. -/
def loopStep (c : Char) (cs : List Char) (offset : Nat) (whole : List Char) :
    Option (Out × Lexer) :=
  let l1 : Lexer := ⟨cs, offset, whole⟩
  if c = '(' then some (.tok .lparen, l1)
  else if c = ')' then some (.tok .rparen, l1)
  else if c = '{' then some (.tok .lbrace, l1)
  else if c = '}' then some (.tok .rbrace, l1)
  else if c = ',' then some (.tok .comma, l1)
  else if c = '.' then some (.tok .dot, l1)
  else if c = '-' then some (.tok .minus, l1)
  else if c = '+' then some (.tok .plus, l1)
  else if c = ';' then some (.tok .semicolon, l1)
  else if c = '*' then some (.tok .star, l1)
  else if c = '!' then some (opEq c .bang .bangEqual l1)
  else if c = '=' then some (opEq c .equal .equalEqual l1)
  else if c = '>' then some (opEq c .greater .greaterEqual l1)
  else if c = '<' then some (opEq c .less .lessEqual l1)
  else if c = '"' then
    -- Started::String: `if !self.rest.contains('"') { … Missing closing … }`
    if cs.contains '"' = false then
      some (.err ⟨"Missing closing double quote", "this opening double quote",
                  offset - c.utf8Size, offset⟩, l1)
    else
      -- `if let Some(idx) = self.rest.rfind('"')`; `idx = utf8Len (cs.take j)`.
      -- lexeme `&current_onwards[..idx + 2]` = `c :: cs.take (j + 1)`;
      -- `self.rest = &self.rest[idx + 1..]` = `cs.drop (j + 1)` (the quote is one byte);
      -- `self.offset += idx + 1`.
      match rfindQuote cs with
      | some j =>
        some (.tok (.string (c :: cs.take (j + 1))),
              ⟨cs.drop (j + 1), offset + utf8Len (cs.take j) + 1, whole⟩)
      | none => some (.eoi, l1)  -- the source's trailing `return None` (unreachable)
  else if isAsciiDigit c then
    -- `'0'..='9' => Started::Number` has no arm in the second match:
    -- it falls into `_ => todo!()`, a panic.
    some (.panic, l1)
  else if identStart c then
    -- Started::Ident: consume the maximal run of `identCont` characters.
    -- `let ident = &self.whole[self.offset - c.len_utf8()..len + self.offset]`
    -- equals `c :: taken` since `rest = whole[offset..]` (`lexer_inv`, proved below);
    -- `self.rest = &self.rest[len..]` drops `taken.length` characters (all ASCII,
    -- one byte each); `self.offset += len` with `len = utf8Len taken`.
    let taken := cs.takeWhile identCont
    some (.tok (.ident (c :: taken)),
          ⟨cs.drop taken.length, offset + utf8Len taken, whole⟩)
  else if isRustWhitespace c then
    none  -- `c if c.is_whitespace() => continue`
  else
    some (.err ⟨unexpectedMsg c, "this character", offset - c.utf8Size, offset⟩, l1)

/-- `Lexer::next`, uncurried over the state fields.  The source's `loop` reads
one character (returning `None` when `rest` is empty), advances `rest` and
`offset` past it, and runs `loopStep`; a `none` (whitespace) continues the loop. -/
def nextAux : List Char → Nat → List Char → Out × Lexer
  | [], offset, whole => (.eoi, ⟨[], offset, whole⟩)
  | c :: cs, offset, whole =>
    match loopStep c cs (offset + c.utf8Size) whole with
    | some r => r
    | none => nextAux cs (offset + c.utf8Size) whole

/-- `<Lexer as Iterator>::next`, returning the observable outcome and the
post-call lexer state. -/
def next (l : Lexer) : Out × Lexer := nextAux l.rest l.offset l.whole

/-- `nextAux` with an explicit iteration budget: `none` means the loop did not
finish within `fuel` iterations.  Used to state that `next` terminates. -/
def nextFuel : Nat → List Char → Nat → List Char → Option (Out × Lexer)
  | 0, _, _, _ => none
  | fuel + 1, rest, offset, whole =>
    match rest with
    | [] => some (.eoi, ⟨[], offset, whole⟩)
    | c :: cs =>
      match loopStep c cs (offset + c.utf8Size) whole with
      | some r => some r
      | none => nextFuel fuel cs (offset + c.utf8Size) whole

/-- Rust `Cow<'_, str>`: whether the value is a borrowed view of the input or a
freshly allocated buffer. -/
inductive Cow where
  | borrowed (s : List Char)
  | owned (s : List Char)
  deriving DecidableEq, Repr

/-- The escape-processing `while let` loop of `TokenType::unescape`. -/
def processEscapes : List Char → List Char
  | [] => []
  | '\\' :: rest =>
    match rest with
    | 'n' :: rest2 => '\n' :: processEscapes rest2
    | 'r' :: rest2 => '\r' :: processEscapes rest2
    | 't' :: rest2 => '\t' :: processEscapes rest2
    | '\\' :: rest2 => '\\' :: processEscapes rest2
    | '"' :: rest2 => '"' :: processEscapes rest2
    | ch :: rest2 => '\\' :: ch :: processEscapes rest2
    | [] => ['\\']
  | ch :: rest => ch :: processEscapes rest

/-- `TokenType::unescape`.  `&s[1..s.len() - 1]` is a byte slice: on input of
fewer than 2 bytes it panics (index out of bounds / overflow), modelled as
`none`.  Otherwise it drops the first and last byte — for a quote-delimited
lexeme these are the one-byte quote characters, i.e. the first and last
character.  If the interior has no backslash it is returned borrowed, else the
escape loop builds an owned buffer. -/
def unescape (s : List Char) : Option Cow :=
  if s.length < 2 then none
  else
    let i := (s.drop 1).dropLast
    if i.contains '\\' = false then some (.borrowed i)
    else some (.owned (processEscapes i))

/-- The cursor invariant of the Rust lexer: `rest` is exactly the suffix of
`whole` starting at byte offset `offset` (`rest == whole[offset..]`), expressed
by the character count `k` of the consumed prefix. -/
def LexerInv (l : Lexer) : Prop :=
  ∃ k : Nat, l.rest = l.whole.drop k ∧ l.offset = utf8Len (l.whole.take k)

theorem utf8Len_nil : utf8Len [] = 0 := rfl

theorem utf8Len_cons (c : Char) (l : List Char) :
    utf8Len (c :: l) = c.utf8Size + utf8Len l := by
  simp [utf8Len]

theorem utf8Len_append (a b : List Char) :
    utf8Len (a ++ b) = utf8Len a + utf8Len b := by
  simp [utf8Len]

theorem rfindQuote_none_iff (l : List Char) :
    rfindQuote l = none ↔ l.contains '"' = false := by
  induction l with
  | nil => simp [rfindQuote]
  | cons c cs ih =>
    cases h : rfindQuote cs with
    | some j =>
      have hc : cs.contains '"' = true := by
        cases hcc : cs.contains '"' with
        | false => exact absurd (h.symm.trans (ih.mpr hcc)) (by simp)
        | true => rfl
      have hm : '"' ∈ cs := List.elem_iff.mp hc
      simp [rfindQuote, h, hm]
    | none =>
      have hc : cs.contains '"' = false := ih.mp h
      have hm : ¬ '"' ∈ cs := by simpa using hc
      by_cases hq : c = '"'
      · simp [rfindQuote, h, hq]
      · simp [rfindQuote, h, hq, hm, Ne.symm hq]

theorem contains_of_rfindQuote {l : List Char} {j : Nat}
    (h : rfindQuote l = some j) : l.contains '"' = true := by
  cases hcc : l.contains '"' with
  | false => exact absurd (((rfindQuote_none_iff l).mpr hcc).symm.trans h) (by simp)
  | true => rfl

theorem rfindQuote_getElem {l : List Char} {j : Nat}
    (h : rfindQuote l = some j) : l[j]? = some '"' := by
  induction l generalizing j with
  | nil => simp [rfindQuote] at h
  | cons c cs ih =>
    simp only [rfindQuote] at h
    cases hcs : rfindQuote cs with
    | some j2 =>
      rw [hcs] at h
      simp only [Option.some.injEq] at h
      subst h
      simpa using ih hcs
    | none =>
      rw [hcs] at h
      by_cases hq : c = '"'
      · rw [if_pos hq] at h
        simp only [Option.some.injEq] at h
        subst h
        simp [hq]
      · rw [if_neg hq] at h
        exact absurd h (by simp)

theorem rfindQuote_last {l : List Char} {j : Nat}
    (h : rfindQuote l = some j) : ∀ i, j < i → l[i]? ≠ some '"' := by
  induction l generalizing j with
  | nil => simp [rfindQuote] at h
  | cons c cs ih =>
    simp only [rfindQuote] at h
    cases hcs : rfindQuote cs with
    | some j2 =>
      rw [hcs] at h
      simp only [Option.some.injEq] at h
      subst h
      intro i hi
      cases i with
      | zero => omega
      | succ i2 =>
        simpa using ih hcs i2 (by omega)
    | none =>
      rw [hcs] at h
      have hc : cs.contains '"' = false := (rfindQuote_none_iff cs).mp hcs
      have hnotmem : ¬ ('"' ∈ cs) := by simpa using hc
      by_cases hq : c = '"'
      · rw [if_pos hq] at h
        simp only [Option.some.injEq] at h
        subst h
        intro i hi hget
        cases i with
        | zero => omega
        | succ i2 =>
          simp only [List.getElem?_cons_succ] at hget
          exact hnotmem (List.getElem?_mem hget)
      · rw [if_neg hq] at h
        exact absurd h (by simp)

theorem utf8Len_take_succ {l : List Char} {j : Nat} {c : Char}
    (h : l[j]? = some c) :
    utf8Len (l.take (j + 1)) = utf8Len (l.take j) + c.utf8Size := by
  rw [List.take_succ, h]
  simp [utf8Len_append, utf8Len]

theorem LexerInv.advance {r : List Char} {off : Nat} {w : List Char}
    (h : LexerInv ⟨r, off, w⟩) (m : Nat) :
    LexerInv ⟨r.drop m, off + utf8Len (r.take m), w⟩ := by
  obtain ⟨k, hr, ho⟩ := h
  simp only at hr ho
  refine ⟨k + m, ?_, ?_⟩
  · simp only [hr, List.drop_drop]
  · simp only [List.take_add w k m, utf8Len_append, hr, ho]

theorem opEq_sound {c : Char} {one two : TokenType} {cs : List Char} {off : Nat}
    {w : List Char} {o : Out} {l' : Lexer}
    (h : opEq c one two ⟨cs, off, w⟩ = (o, l')) :
    o ≠ Out.eoi ∧ ∃ m, l' = ⟨cs.drop m, off + utf8Len (cs.take m), w⟩ := by
  cases cs with
  | nil =>
    simp only [opEq, Prod.mk.injEq] at h
    exact ⟨h.1 ▸ (by simp), 0, by simp [← h.2, utf8Len_nil]⟩
  | cons ch cs2 =>
    by_cases hch : ch = '='
    · simp only [opEq, if_pos hch, Prod.mk.injEq] at h
      exact ⟨h.1 ▸ (by simp), 1, by simp [← h.2, utf8Len_cons, utf8Len_nil]⟩
    · simp only [opEq, if_neg hch, Prod.mk.injEq] at h
      exact ⟨h.1 ▸ (by simp), 0, by simp [← h.2, utf8Len_nil]⟩

theorem loopStep_sound {c : Char} {cs : List Char} {off : Nat} {w : List Char}
    {o : Out} {l' : Lexer} (h : loopStep c cs off w = some (o, l')) :
    o ≠ Out.eoi ∧ ∃ m, l' = ⟨cs.drop m, off + utf8Len (cs.take m), w⟩ := by
  simp only [loopStep] at h
  by_cases h1 : c = '('
  · rw [if_pos h1] at h
    simp only [Option.some.injEq, Prod.mk.injEq] at h
    exact ⟨h.1 ▸ (by simp), 0, by simp [← h.2, utf8Len_nil]⟩
  rw [if_neg h1] at h
  by_cases h2 : c = ')'
  · rw [if_pos h2] at h
    simp only [Option.some.injEq, Prod.mk.injEq] at h
    exact ⟨h.1 ▸ (by simp), 0, by simp [← h.2, utf8Len_nil]⟩
  rw [if_neg h2] at h
  by_cases h3 : c = '{'
  · rw [if_pos h3] at h
    simp only [Option.some.injEq, Prod.mk.injEq] at h
    exact ⟨h.1 ▸ (by simp), 0, by simp [← h.2, utf8Len_nil]⟩
  rw [if_neg h3] at h
  by_cases h4 : c = '}'
  · rw [if_pos h4] at h
    simp only [Option.some.injEq, Prod.mk.injEq] at h
    exact ⟨h.1 ▸ (by simp), 0, by simp [← h.2, utf8Len_nil]⟩
  rw [if_neg h4] at h
  by_cases h5 : c = ','
  · rw [if_pos h5] at h
    simp only [Option.some.injEq, Prod.mk.injEq] at h
    exact ⟨h.1 ▸ (by simp), 0, by simp [← h.2, utf8Len_nil]⟩
  rw [if_neg h5] at h
  by_cases h6 : c = '.'
  · rw [if_pos h6] at h
    simp only [Option.some.injEq, Prod.mk.injEq] at h
    exact ⟨h.1 ▸ (by simp), 0, by simp [← h.2, utf8Len_nil]⟩
  rw [if_neg h6] at h
  by_cases h7 : c = '-'
  · rw [if_pos h7] at h
    simp only [Option.some.injEq, Prod.mk.injEq] at h
    exact ⟨h.1 ▸ (by simp), 0, by simp [← h.2, utf8Len_nil]⟩
  rw [if_neg h7] at h
  by_cases h8 : c = '+'
  · rw [if_pos h8] at h
    simp only [Option.some.injEq, Prod.mk.injEq] at h
    exact ⟨h.1 ▸ (by simp), 0, by simp [← h.2, utf8Len_nil]⟩
  rw [if_neg h8] at h
  by_cases h9 : c = ';'
  · rw [if_pos h9] at h
    simp only [Option.some.injEq, Prod.mk.injEq] at h
    exact ⟨h.1 ▸ (by simp), 0, by simp [← h.2, utf8Len_nil]⟩
  rw [if_neg h9] at h
  by_cases h10 : c = '*'
  · rw [if_pos h10] at h
    simp only [Option.some.injEq, Prod.mk.injEq] at h
    exact ⟨h.1 ▸ (by simp), 0, by simp [← h.2, utf8Len_nil]⟩
  rw [if_neg h10] at h
  by_cases h11 : c = '!'
  · rw [if_pos h11] at h
    exact opEq_sound (Option.some.injEq .. |>.mp h)
  rw [if_neg h11] at h
  by_cases h12 : c = '='
  · rw [if_pos h12] at h
    exact opEq_sound (Option.some.injEq .. |>.mp h)
  rw [if_neg h12] at h
  by_cases h13 : c = '>'
  · rw [if_pos h13] at h
    exact opEq_sound (Option.some.injEq .. |>.mp h)
  rw [if_neg h13] at h
  by_cases h14 : c = '<'
  · rw [if_pos h14] at h
    exact opEq_sound (Option.some.injEq .. |>.mp h)
  rw [if_neg h14] at h
  by_cases h15 : c = '"'
  · rw [if_pos h15] at h
    by_cases h16 : cs.contains '"' = false
    · rw [if_pos h16] at h
      simp only [Option.some.injEq, Prod.mk.injEq] at h
      exact ⟨h.1 ▸ (by simp), 0, by simp [← h.2, utf8Len_nil]⟩
    · rw [if_neg h16] at h
      cases hq : rfindQuote cs with
      | some j =>
        rw [hq] at h
        simp only [Option.some.injEq, Prod.mk.injEq] at h
        refine ⟨h.1 ▸ (by simp), j + 1, ?_⟩
        rw [← h.2]
        have hg := utf8Len_take_succ (rfindQuote_getElem hq)
        have hsz : ('"' : Char).utf8Size = 1 := by decide
        rw [hg, hsz]
        simp [Nat.add_assoc]
      | none =>
        exact absurd ((rfindQuote_none_iff cs).mp hq) h16
  rw [if_neg h15] at h
  by_cases h17 : isAsciiDigit c = true
  · rw [if_pos h17] at h
    simp only [Option.some.injEq, Prod.mk.injEq] at h
    exact ⟨h.1 ▸ (by simp), 0, by simp [← h.2, utf8Len_nil]⟩
  rw [if_neg h17] at h
  by_cases h18 : identStart c = true
  · rw [if_pos h18] at h
    simp only [Option.some.injEq, Prod.mk.injEq] at h
    have htw : cs.takeWhile identCont = cs.take (cs.takeWhile identCont).length :=
      List.prefix_iff_eq_take.mp (List.takeWhile_prefix _)
    refine ⟨h.1 ▸ (by simp), (cs.takeWhile identCont).length, ?_⟩
    rw [← h.2, ← htw]
  rw [if_neg h18] at h
  by_cases h19 : isRustWhitespace c = true
  · rw [if_pos h19] at h
    exact absurd h (by simp)
  rw [if_neg h19] at h
  simp only [Option.some.injEq, Prod.mk.injEq] at h
  exact ⟨h.1 ▸ (by simp), 0, by simp [← h.2, utf8Len_nil]⟩

theorem nextAux_inv_mono (r : List Char) (off : Nat) (w : List Char)
    (h : LexerInv ⟨r, off, w⟩) :
    LexerInv (nextAux r off w).2 ∧ off ≤ (nextAux r off w).2.offset := by
  induction r generalizing off with
  | nil => exact ⟨h, Nat.le_refl _⟩
  | cons c cs ih =>
    have hadv : LexerInv ⟨cs, off + c.utf8Size, w⟩ := by
      have h2 := h.advance 1
      simpa [utf8Len_cons, utf8Len_nil] using h2
    simp only [nextAux]
    cases hls : loopStep c cs (off + c.utf8Size) w with
    | some r' =>
      obtain ⟨o, l'⟩ := r'
      obtain ⟨-, m, rfl⟩ := loopStep_sound hls
      exact ⟨hadv.advance m,
        Nat.le_trans (Nat.le_add_right off c.utf8Size)
          (Nat.le_add_right (off + c.utf8Size) (utf8Len (cs.take m)))⟩
    | none =>
      exact ⟨(ih _ hadv).1, Nat.le_trans (Nat.le_add_right off _) (ih _ hadv).2⟩

theorem nextAux_eoi_rest (r : List Char) (off : Nat) (w : List Char)
    (h : (nextAux r off w).1 = Out.eoi) : (nextAux r off w).2.rest = [] := by
  induction r generalizing off with
  | nil => rfl
  | cons c cs ih =>
    simp only [nextAux] at h ⊢
    cases hls : loopStep c cs (off + c.utf8Size) w with
    | some r' =>
      obtain ⟨o, l'⟩ := r'
      rw [hls] at h
      exact absurd h (loopStep_sound hls).1
    | none =>
      rw [hls] at h
      exact ih _ h

theorem not_digit_of_identStart {c : Char} (h : identStart c = true) :
    isAsciiDigit c = false := by
  simp only [identStart, Bool.or_eq_true, Bool.and_eq_true, decide_eq_true_eq,
    beq_iff_eq] at h
  simp only [isAsciiDigit]
  rcases h with ⟨h1, h2⟩ | h3
  · simp only [Bool.and_eq_false_iff, decide_eq_false_iff_not]
    right
    intro hc
    exact absurd (le_trans h1 hc) (by decide)
  · subst h3
    decide

theorem loopStep_identStart {c : Char} (h : identStart c = true)
    (cs : List Char) (off : Nat) (w : List Char) :
    loopStep c cs off w =
      some (.tok (.ident (c :: cs.takeWhile identCont)),
            ⟨cs.drop (cs.takeWhile identCont).length,
             off + utf8Len (cs.takeWhile identCont), w⟩) := by
  simp only [loopStep]
  rw [if_neg (show c ≠ '(' from fun e => absurd (e ▸ h) (by decide)),
      if_neg (show c ≠ ')' from fun e => absurd (e ▸ h) (by decide)),
      if_neg (show c ≠ '{' from fun e => absurd (e ▸ h) (by decide)),
      if_neg (show c ≠ '}' from fun e => absurd (e ▸ h) (by decide)),
      if_neg (show c ≠ ',' from fun e => absurd (e ▸ h) (by decide)),
      if_neg (show c ≠ '.' from fun e => absurd (e ▸ h) (by decide)),
      if_neg (show c ≠ '-' from fun e => absurd (e ▸ h) (by decide)),
      if_neg (show c ≠ '+' from fun e => absurd (e ▸ h) (by decide)),
      if_neg (show c ≠ ';' from fun e => absurd (e ▸ h) (by decide)),
      if_neg (show c ≠ '*' from fun e => absurd (e ▸ h) (by decide)),
      if_neg (show c ≠ '!' from fun e => absurd (e ▸ h) (by decide)),
      if_neg (show c ≠ '=' from fun e => absurd (e ▸ h) (by decide)),
      if_neg (show c ≠ '>' from fun e => absurd (e ▸ h) (by decide)),
      if_neg (show c ≠ '<' from fun e => absurd (e ▸ h) (by decide)),
      if_neg (show c ≠ '"' from fun e => absurd (e ▸ h) (by decide)),
      if_neg (show ¬ isAsciiDigit c = true by simp [not_digit_of_identStart h]),
      if_pos h]

theorem loopStep_string {cs : List Char} {j : Nat}
    (h : rfindQuote cs = some j) (off : Nat) (w : List Char) :
    loopStep '"' cs off w =
      some (.tok (.string ('"' :: cs.take (j + 1))),
            ⟨cs.drop (j + 1), off + utf8Len (cs.take j) + 1, w⟩) := by
  have hcon : cs.contains '"' = true := contains_of_rfindQuote h
  simp only [loopStep]
  rw [if_neg (by decide : ¬ ('"' : Char) = '('),
      if_neg (by decide : ¬ ('"' : Char) = ')'),
      if_neg (by decide : ¬ ('"' : Char) = '{'),
      if_neg (by decide : ¬ ('"' : Char) = '}'),
      if_neg (by decide : ¬ ('"' : Char) = ','),
      if_neg (by decide : ¬ ('"' : Char) = '.'),
      if_neg (by decide : ¬ ('"' : Char) = '-'),
      if_neg (by decide : ¬ ('"' : Char) = '+'),
      if_neg (by decide : ¬ ('"' : Char) = ';'),
      if_neg (by decide : ¬ ('"' : Char) = '*'),
      if_neg (by decide : ¬ ('"' : Char) = '!'),
      if_neg (by decide : ¬ ('"' : Char) = '='),
      if_neg (by decide : ¬ ('"' : Char) = '>'),
      if_neg (by decide : ¬ ('"' : Char) = '<'),
      if_pos True.intro,
      if_neg (show ¬ (cs.contains '"' = false) by
        simp only [hcon]
        exact fun e => Bool.noConfusion e), h]

theorem loopStep_unexpected {c : Char} (cs : List Char) (off : Nat) (w : List Char)
    (h1 : c ≠ '(') (h2 : c ≠ ')') (h3 : c ≠ '{') (h4 : c ≠ '}') (h5 : c ≠ ',')
    (h6 : c ≠ '.') (h7 : c ≠ '-') (h8 : c ≠ '+') (h9 : c ≠ ';') (h10 : c ≠ '*')
    (h11 : c ≠ '!') (h12 : c ≠ '=') (h13 : c ≠ '>') (h14 : c ≠ '<') (h15 : c ≠ '"')
    (h16 : isAsciiDigit c = false) (h17 : identStart c = false)
    (h18 : isRustWhitespace c = false) :
    loopStep c cs off w =
      some (.err ⟨unexpectedMsg c, "this character", off - c.utf8Size, off⟩,
            ⟨cs, off, w⟩) := by
  simp only [loopStep]
  rw [if_neg h1, if_neg h2, if_neg h3, if_neg h4, if_neg h5, if_neg h6, if_neg h7,
      if_neg h8, if_neg h9, if_neg h10, if_neg h11, if_neg h12, if_neg h13,
      if_neg h14, if_neg h15,
      if_neg (show ¬ isAsciiDigit c = true by simp [h16]),
      if_neg (show ¬ identStart c = true by simp [h17]),
      if_neg (show ¬ isRustWhitespace c = true by simp [h18])]

/-- Claim C1: the spec says `123.45` scans to one Number token and `7.` to a
Number for `7` followed by a Dot.  In the code, `'0'..='9'` enters
`Started::Number`, which has no arm in the second match and falls into
`_ => todo!()`: both inputs make `next()` panic instead of producing a token. -/
theorem c1_number_start_panics :
    (next (Lexer.new ("123.45".toList))).1 = Out.panic ∧
    (next (Lexer.new ("7.".toList))).1 = Out.panic :=
  ⟨rfl, rfl⟩

/-- Claim C2 (counterexample): the word `and` does not scan to the `And`
keyword kind but to `Identifier("and")` (there is no keyword lookup), and the
run after `a` stops at the digit `0` (the continuation class is `'1'..='9'`,
excluding `'0'`), so `a0` scans to `Identifier("a")`, not `Identifier("a0")`. -/
theorem c2_keyword_counterexample :
    (next (Lexer.new ("and".toList))).1 = Out.tok (.ident ("and".toList)) ∧
    Out.tok (TokenType.ident ("and".toList)) ≠ Out.tok TokenType.kwAnd ∧
    (next (Lexer.new ("a0".toList))).1 = Out.tok (.ident ['a']) :=
  ⟨rfl, by decide, rfl⟩

/-- Claim C2 (amended): for every input beginning with an ASCII lowercase
letter or `_`, `next()` consumes the maximal run of characters in
`identCont` (ASCII lowercase letters, the digits `1`–`9` — not `0` — and `_`)
and always emits `Identifier(word)`; no keyword lookup is performed. -/
theorem c2_ident_amended (c : Char) (cs : List Char) (off : Nat) (w : List Char)
    (h : identStart c = true) :
    next ⟨c :: cs, off, w⟩ =
      (Out.tok (.ident (c :: cs.takeWhile identCont)),
       ⟨cs.drop (cs.takeWhile identCont).length,
        off + c.utf8Size + utf8Len (cs.takeWhile identCont), w⟩) := by
  show nextAux (c :: cs) off w = _
  simp only [nextAux]
  rw [loopStep_identStart h]

/-- Claim C2 witness: `andy` scans to `Identifier("andy")` with the cursor at
byte 4. -/
theorem c2_ident_amended_witness :
    identStart 'a' = true ∧
    next ⟨['a', 'n', 'd', 'y'], 0, ['a', 'n', 'd', 'y']⟩ =
      (Out.tok (.ident ['a', 'n', 'd', 'y']), ⟨[], 4, ['a', 'n', 'd', 'y']⟩) :=
  ⟨by decide, c2_ident_amended 'a' ['n', 'd', 'y'] 0 ['a', 'n', 'd', 'y'] (by decide)⟩

/-- Claim C4 (counterexample): with two closing-quote candidates in the
remainder, the emitted String lexeme runs through the LAST `"` (the code uses
`rfind`), not the first: `"a"b"` scans to one String token whose lexeme is the
whole `"a"b"`, not `"a"`. -/
theorem c4_rfind_counterexample :
    (next (Lexer.new ['"', 'a', '"', 'b', '"'])).1 =
      Out.tok (.string ['"', 'a', '"', 'b', '"']) ∧
    Out.tok (TokenType.string ['"', 'a', '"', 'b', '"']) ≠
      Out.tok (.string ['"', 'a', '"']) :=
  ⟨rfl, by decide⟩

/-- Claim C4 (amended): when the remainder contains a `"`, the String token's
raw lexeme spans from the opening quote through and including the LAST `"`
byte of the remaining buffer (index `j`, `rfind`), and the cursor advances to
just past that quote. -/
theorem c4_string_amended (cs : List Char) (j : Nat) (off : Nat) (w : List Char)
    (h : rfindQuote cs = some j) :
    cs[j]? = some '"' ∧
    (∀ i, j < i → cs[i]? ≠ some '"') ∧
    next ⟨'"' :: cs, off, w⟩ =
      (Out.tok (.string ('"' :: cs.take (j + 1))),
       ⟨cs.drop (j + 1), off + 1 + utf8Len (cs.take j) + 1, w⟩) := by
  refine ⟨rfindQuote_getElem h, rfindQuote_last h, ?_⟩
  show nextAux ('"' :: cs) off w = _
  simp only [nextAux]
  rw [loopStep_string h]
  simp [show ('"' : Char).utf8Size = 1 from rfl]

/-- Claim C4 witness: `"a"` scans to the String token `"a"` with the cursor at
byte 3. -/
theorem c4_string_amended_witness :
    (['a', '"'] : List Char)[1]? = some '"' ∧
    (∀ i, 1 < i → (['a', '"'] : List Char)[i]? ≠ some '"') ∧
    next ⟨['"', 'a', '"'], 0, ['"', 'a', '"']⟩ =
      (Out.tok (.string ['"', 'a', '"']), ⟨[], 3, ['"', 'a', '"']⟩) :=
  c4_string_amended ['a', '"'] 1 0 ['"', 'a', '"'] rfl

/-- Claim C5: the spec says `next()` never aborts the process and that inputs
starting a numeric literal also yield a token, end-of-input, or a diagnostic.
In the code every input starting with an ASCII digit reaches `todo!()`, which
panics and aborts the process. -/
theorem c5_digit_panics :
    (next (Lexer.new ['0'])).1 = Out.panic ∧
    (next (Lexer.new ['9'])).1 = Out.panic ∧
    (next (Lexer.new ("42".toList))).1 = Out.panic :=
  ⟨rfl, rfl, rfl⟩

/-- Claim C6 (counterexample): the stream does not terminate at the first
error: on `@+` the first `next()` returns the `Unexpected token @ in input`
diagnostic, and the second call returns the `Plus` token. -/
theorem c6_continue_counterexample :
    (next (Lexer.new ['@', '+'])).1 =
      Out.err ⟨unexpectedMsg '@', "this character", 0, 1⟩ ∧
    (next (next (Lexer.new ['@', '+'])).2).1 = Out.tok TokenType.plus :=
  ⟨rfl, rfl⟩

/-- Claim C6 (amended): after `next()` has returned end-of-input, every
subsequent call returns end-of-input again with an unchanged state; a
Diagnostic, however, does not exhaust the stream (see the counterexample). -/
theorem c6_eoi_idempotent (l : Lexer) (h : (next l).1 = Out.eoi) :
    next (next l).2 = (Out.eoi, (next l).2) := by
  have hrest : (next l).2.rest = [] := nextAux_eoi_rest l.rest l.offset l.whole h
  have hE : (next l).2 = ⟨(next l).2.rest, (next l).2.offset, (next l).2.whole⟩ := rfl
  rw [hE, hrest]
  rfl

/-- Claim C6 witness: scanning the all-whitespace input consisting of one
space reaches end-of-input, and the next call is idempotent. -/
theorem c6_eoi_idempotent_witness :
    (next (Lexer.new [' '])).1 = Out.eoi ∧
    next (next (Lexer.new [' '])).2 = (Out.eoi, (next (Lexer.new [' '])).2) :=
  ⟨rfl, c6_eoi_idempotent (Lexer.new [' ']) rfl⟩

/-- Claim C7: reading an unclassifiable character `c` yields the Diagnostic
`Unexpected token c in input` labelled `this character`, whose span is exactly
the byte range of `c` in the buffer (start = byte offset of `c`, end = start
plus `c`'s UTF-8 length), also when multi-byte characters precede `c`. -/
theorem c7_unexpected_char (pre : List Char) (c : Char) (cs : List Char)
    (h1 : c ≠ '(') (h2 : c ≠ ')') (h3 : c ≠ '{') (h4 : c ≠ '}') (h5 : c ≠ ',')
    (h6 : c ≠ '.') (h7 : c ≠ '-') (h8 : c ≠ '+') (h9 : c ≠ ';') (h10 : c ≠ '*')
    (h11 : c ≠ '!') (h12 : c ≠ '=') (h13 : c ≠ '>') (h14 : c ≠ '<') (h15 : c ≠ '"')
    (h16 : isAsciiDigit c = false) (h17 : identStart c = false)
    (h18 : isRustWhitespace c = false) :
    next ⟨c :: cs, utf8Len pre, pre ++ c :: cs⟩ =
      (Out.err ⟨unexpectedMsg c, "this character",
                utf8Len pre, utf8Len pre + c.utf8Size⟩,
       ⟨cs, utf8Len pre + c.utf8Size, pre ++ c :: cs⟩) := by
  show nextAux _ _ _ = _
  simp only [nextAux]
  rw [loopStep_unexpected cs (utf8Len pre + c.utf8Size) (pre ++ c :: cs)
        h1 h2 h3 h4 h5 h6 h7 h8 h9 h10 h11 h12 h13 h14 h15 h16 h17 h18]
  simp [Nat.add_sub_cancel]

/-- Claim C7 witness: `@` preceded by the two-byte character `λ` is reported
with byte span 2..3 (byte offsets, not character counts). -/
theorem c7_unexpected_char_witness :
    next ⟨['@'], 2, ['λ', '@']⟩ =
      (Out.err ⟨unexpectedMsg '@', "this character", 2, 3⟩, ⟨[], 3, ['λ', '@']⟩) :=
  c7_unexpected_char ['λ'] '@' [] (by decide) (by decide) (by decide) (by decide)
    (by decide) (by decide) (by decide) (by decide) (by decide) (by decide)
    (by decide) (by decide) (by decide) (by decide) (by decide) (by decide)
    (by decide) (by decide)

/-- Claim C8: for a raw lexeme `"` ++ interior ++ `"`: with no backslash in
the interior, `unescape` returns the interior unchanged as a borrowed view;
the raw lexeme `"a\nb"` (with a literal backslash-n) decodes to the three
characters `a`, newline, `b`; and on every quote-delimited input `unescape`
returns a value (it never fails). -/
theorem c8_unescape (interior : List Char) :
    (interior.contains '\\' = false →
      unescape ('"' :: interior ++ ['"']) = some (.borrowed interior)) ∧
    unescape ['"', 'a', '\\', 'n', 'b', '"'] = some (.owned ['a', '\n', 'b']) ∧
    ∃ r, unescape ('"' :: interior ++ ['"']) = some r := by
  have hlen : ¬ (('"' :: interior ++ ['"']).length < 2) := by
    simp
  have hi : (('"' :: interior ++ ['"']).drop 1).dropLast = interior := by
    rw [show ('"' :: interior ++ ['"']).drop 1 = interior ++ ['"'] from rfl,
        List.dropLast_concat]
  refine ⟨?_, rfl, ?_⟩
  · intro hnb
    simp only [unescape]
    rw [if_neg hlen, hi, if_pos hnb]
  · cases hbs : interior.contains '\\' with
    | false =>
      exact ⟨.borrowed interior, by
        simp only [unescape]
        rw [if_neg hlen, hi, if_pos hbs]⟩
    | true =>
      exact ⟨.owned (processEscapes interior), by
        simp only [unescape]
        rw [if_neg hlen, hi,
            if_neg (show ¬ (interior.contains '\\' = false) by
              simp only [hbs]
              exact fun e => Bool.noConfusion e)]⟩

/-- Claim C8 witness: the lexeme `"ab"` decodes to the borrowed interior
`ab`. -/
theorem c8_unescape_witness :
    unescape ['"', 'a', 'b', '"'] = some (.borrowed ['a', 'b']) :=
  (c8_unescape ['a', 'b']).1 (by decide)

/-- Claim C9: when the cursor invariant `rest = whole[offset..]` holds before
a call to `next()`, it holds afterwards, and the byte offset is monotonically
non-decreasing across the call. -/
theorem c9_cursor_invariant (l : Lexer) (h : LexerInv l) :
    LexerInv (next l).2 ∧ l.offset ≤ (next l).2.offset := by
  obtain ⟨r, off, w⟩ := l
  exact nextAux_inv_mono r off w h

/-- Claim C9 witness: the invariant is preserved from the freshly constructed
lexer on `(`. -/
theorem c9_cursor_invariant_witness :
    LexerInv (next (Lexer.new ['('])).2 ∧
    (Lexer.new ['(']).offset ≤ (next (Lexer.new ['('])).2.offset :=
  c9_cursor_invariant (Lexer.new ['(']) ⟨0, rfl, rfl⟩

/-- Claim C10: every call to `next()` terminates on every finite input: the
scanning loop finishes within `rest.length + 1` iterations, because each
iteration (including the whitespace `continue`) consumes one character of the
remaining input. -/
theorem c10_next_terminates (r : List Char) (off : Nat) (w : List Char) :
    nextFuel (r.length + 1) r off w = some (nextAux r off w) := by
  induction r generalizing off with
  | nil => rfl
  | cons c cs ih =>
    show nextFuel (cs.length + 1 + 1) (c :: cs) off w = _
    simp only [nextFuel, nextAux]
    cases hls : loopStep c cs (off + c.utf8Size) w with
    | some r' => rfl
    | none => exact ih _

end Loxrs
